import Mathlib

/-!
Verification of the "Historical Court" multi-agent workflow
(src/adk_multiagent_systems/adk_multiagent_systems/workflow_agents/agent.py).

The file embeds, as executable Lean definitions:
  * the session-state store and the tool update_session_state;
  * the tool export_verdict_to_txt together with the posix path
    functions it calls (os.path.join, os.path.dirname, os.makedirs,
    open(..., "w")) over an explicit filesystem model;
  * the workflow tree that the module builds at import time
    (agents, parallel stage, review loop, sequential workflow, root);
  * the loop-execution semantics of the surrounding engine, which is
    not part of the repository and is therefore modelled from the spec.

Python strings are embedded as lists of characters, dictionaries as
association lists, and raised exceptions as the error branch of Except.
-/

/-- A Python string, embedded as a list of characters. -/
abbrev PyStr := List Char

/-- The session state: a dictionary from string keys to lists of strings.
Every write in the repository goes through update_session_state, which
stores lists, so values are lists of strings. -/
abbrev SessionState := List (String × List String)

/-- Dictionary read with default: tool_context.state.get(key, []). -/
def stateGet (s : SessionState) (key : String) : List String :=
  match s with
  | [] => []
  | (k, v) :: rest => if key = k then v else stateGet rest key

/-- Dictionary assignment: tool_context.state[key] = value.  Replaces the
binding of key in place when present, otherwise adds it. -/
def stateSet (s : SessionState) (key : String) (value : List String) : SessionState :=
  match s with
  | [] => [(key, value)]
  | (k, v) :: rest =>
    if key = k then (key, value) :: rest else (k, v) :: stateSet rest key value

/-- The dictionary returned by both tools on success. -/
def successResult : List (String × String) := [("status", "success")]

/-- Embedding of update_session_state (agent.py lines 30-37): reads the
current sequence at key (empty when absent), appends value, writes the
result back, and returns the success dictionary.  The logging call has
no observable effect and is omitted. -/
def update_session_state (state : SessionState) (key : String) (value : String) :
    SessionState × List (String × String) :=
  (stateSet state key (stateGet state key ++ [value]), successResult)

/-! ## Posix path functions used by export_verdict_to_txt -/

/-- A file name or folder is separator-free when it contains no slash. -/
def sepFree (p : PyStr) : Prop := ∀ c ∈ p, c ≠ '/'

instance (p : PyStr) : Decidable (sepFree p) := by
  unfold sepFree; infer_instance

/-- Embedding of os.path.join(folder, name) (posixpath.join) for two
arguments: if name starts with the separator it replaces the path;
otherwise it is appended, inserting a slash unless folder is empty or
already ends with one. -/
def joinPath (folder name : PyStr) : PyStr :=
  if name.head? = some '/' then name
  else if folder = [] then folder ++ name
  else if folder.getLast? = some '/' then folder ++ name
  else folder ++ '/' :: name

/-- Strip trailing slashes: Python str.rstrip with the separator. -/
def rstrip (p : PyStr) : PyStr :=
  (p.reverse.dropWhile (fun c => c = '/')).reverse

/-- Embedding of os.path.dirname (posixpath.dirname): keep everything up
to and including the last slash, then strip trailing slashes unless the
head is empty or consists only of slashes. -/
def dirname (p : PyStr) : PyStr :=
  let head := (p.reverse.dropWhile (fun c => c ≠ '/')).reverse
  if head = [] then head
  else if head.all (fun c => c = '/') then head
  else rstrip head

/-- Split a path at slashes.  Always returns a non-empty list of groups. -/
def splitOnSlash : PyStr → List PyStr
  | [] => [[]]
  | c :: rest =>
    match splitOnSlash rest with
    | [] => [[]]
    | g :: gs => if c = '/' then [] :: g :: gs else (c :: g) :: gs

/-- The non-empty components of a path.  Two path strings denote the same
directory entry exactly when their components agree (trailing or repeated
slashes do not change the entry a path denotes). -/
def components (p : PyStr) : List PyStr :=
  (splitOnSlash p).filter (fun g => g ≠ [])

/-- All ancestors of a component list, from the root up to the list
itself: the directories os.makedirs creates on the way. -/
def ancestors : List PyStr → List (List PyStr)
  | [] => [[]]
  | c :: rest => [] :: (ancestors rest).map (fun p => c :: p)

/-! ## Filesystem model -/

/-- Errors raised by the filesystem operations. -/
inductive OSErr where
  | fileNotFound
  | fileExists
  | isADirectory
  deriving DecidableEq

/-- A filesystem: the set of existing directories and the existing files
with their contents, both keyed by the components of their path. -/
structure FS where
  dirs : List (List PyStr)
  files : List (List PyStr × PyStr)
  deriving DecidableEq

/-- Directory existence. -/
def dirExists (fs : FS) (d : List PyStr) : Prop := d ∈ fs.dirs

instance (fs : FS) (d : List PyStr) : Decidable (dirExists fs d) := by
  unfold dirExists; infer_instance

/-- First-match lookup in a file table. -/
def lookupFile : List (List PyStr × PyStr) → List PyStr → Option PyStr
  | [], _ => none
  | (q, c) :: rest, p => if p = q then some c else lookupFile rest p

/-- Content of the file at a component path, when present. -/
def fileContent (fs : FS) (p : List PyStr) : Option PyStr :=
  lookupFile fs.files p

/-- A sane filesystem: the root exists and directories are closed under
taking the parent. -/
def WellFormed (fs : FS) : Prop :=
  [] ∈ fs.dirs ∧ ∀ d ∈ fs.dirs, d.dropLast ∈ fs.dirs

instance (fs : FS) : Decidable (WellFormed fs) := by
  unfold WellFormed; infer_instance

/-- Embedding of os.makedirs(name, exist_ok=True).  On the empty path
Python raises FileNotFoundError; when some ancestor of the target is an
existing file the recursive mkdir raises FileExistsError; otherwise every
ancestor directory of the target is created (existing ones are fine
because of exist_ok). -/
def makedirs (fs : FS) (name : PyStr) : Except OSErr FS :=
  if name = [] then .error .fileNotFound
  else if (ancestors (components name)).any
      (fun p => (fileContent fs p).isSome) then .error .fileExists
  else .ok ⟨ancestors (components name) ++ fs.dirs, fs.files⟩

/-- Embedding of open(path, "w") followed by file.write(content): fails
when the path names a directory (or ends in a slash) or when the parent
directory does not exist; otherwise creates or overwrites the file. -/
def writeFile (fs : FS) (path content : PyStr) : Except OSErr FS :=
  if path.getLast? = some '/' then .error .isADirectory
  else if components path = [] then .error .isADirectory
  else if dirExists fs (components path) then .error .isADirectory
  else if ¬ dirExists fs (components path).dropLast then .error .fileNotFound
  else .ok ⟨fs.dirs,
    (components path, content) ::
      fs.files.filter (fun kv => kv.1 ≠ components path)⟩

/-- Embedding of export_verdict_to_txt (agent.py lines 39-50): joins the
folder and file name, creates the directory of the resulting path, writes
the text, and returns the success dictionary.  Python exceptions appear
as the error branch and propagate, since the source has no handler. -/
def export_verdict_to_txt (fs : FS) (folder file_name text_content : PyStr) :
    Except OSErr (FS × List (String × String)) :=
  match makedirs fs (dirname (joinPath folder file_name)) with
  | .error e => .error e
  | .ok fs1 =>
    match writeFile fs1 (joinPath folder file_name) text_content with
    | .error e => .error e
    | .ok fs2 => .ok (fs2, successResult)

/-- The filesystem holding only the root directory. -/
def fs0 : FS := ⟨[[]], []⟩

/-! ## The workflow tree built by the module -/

/-- The tools an agent is given (agent.py binds each by reference). -/
inductive ToolRef where
  | wikipediaQuery
  | updateStateTool
  | exportVerdictTool
  | exitLoopTool
  deriving DecidableEq

/-- A node of the workflow tree: an LLM agent step with its model, tool
list and sub-agents, or one of the composite steps Sequential, Parallel
and Loop (the latter with its max_iterations setting). -/
inductive WorkflowNode where
  | agentStep (name : String) (model : Option String) (tools : List ToolRef)
      (subAgents : List WorkflowNode)
  | sequentialStep (name : String) (subAgents : List WorkflowNode)
  | parallelStep (name : String) (subAgents : List WorkflowNode)
  | loopStep (name : String) (subAgents : List WorkflowNode) (maxIterations : Nat)

/-- The kind of a node. -/
inductive NodeKind where
  | agent
  | sequential
  | parallel
  | loop
  deriving DecidableEq

def kindOf : WorkflowNode → NodeKind
  | .agentStep _ _ _ _ => .agent
  | .sequentialStep _ _ => .sequential
  | .parallelStep _ _ => .parallel
  | .loopStep _ _ _ => .loop

def nodeModel : WorkflowNode → Option String
  | .agentStep _ m _ _ => m
  | _ => none

def nodeMaxIterations : WorkflowNode → Nat
  | .loopStep _ _ k => k
  | _ => 0

/-- The process environment, as a partial map from variable names. -/
def Env := String → Option String

/-- Embedding of agent.py line 26: model_name = os.getenv("MODEL").
No check of any kind follows this read in the source. -/
def model_name (env : Env) : Option String := env "MODEL"

/-- Agent A, the Admirer (agent.py lines 55-72). -/
def the_admirer (env : Env) : WorkflowNode :=
  .agentStep "admirer" (model_name env) [.wikipediaQuery, .updateStateTool] []

/-- Agent B, the Critic (agent.py lines 75-92). -/
def the_critic (env : Env) : WorkflowNode :=
  .agentStep "critic" (model_name env) [.wikipediaQuery, .updateStateTool] []

/-- The parallel investigation stage (agent.py lines 95-98). -/
def investigation_stage (env : Env) : WorkflowNode :=
  .parallelStep "investigation_stage" [the_admirer env, the_critic env]

/-- Agent C, the Judge, whose only tool is exit_loop (agent.py lines 101-116). -/
def the_judge (env : Env) : WorkflowNode :=
  .agentStep "judge" (model_name env) [.exitLoopTool] []

/-- The review loop with max_iterations = 3 (agent.py lines 119-123). -/
def trial_review_loop (env : Env) : WorkflowNode :=
  .loopStep "trial_review_loop" [investigation_stage env, the_judge env] 3

/-- The scribe that writes the final report (agent.py lines 126-147). -/
def verdict_scribe (env : Env) : WorkflowNode :=
  .agentStep "verdict_scribe" (model_name env) [.exportVerdictTool] []

/-- The main sequential workflow (agent.py lines 150-157). -/
def court_system_workflow (env : Env) : WorkflowNode :=
  .sequentialStep "court_system_workflow" [trial_review_loop env, verdict_scribe env]

/-- The entry-point agent; note it is an LLM Agent, not a Sequential,
holding the main workflow as its single sub-agent to transfer to
(agent.py lines 160-172). -/
def inquiry_clerk (env : Env) : WorkflowNode :=
  .agentStep "inquiry_clerk" (model_name env) [.updateStateTool]
    [court_system_workflow env]

/-- The exported root (agent.py line 174). -/
def root_agent (env : Env) : WorkflowNode := inquiry_clerk env

/-- A concrete environment that sets MODEL. -/
def envSome : Env := fun _ => some "gemini-2.0-flash"

/-- A concrete environment in which MODEL is absent. -/
def envNone : Env := fun _ => none

/-! ## Loop-execution semantics

The execution engine (google.adk's LoopAgent, SequentialAgent and the
exit_loop tool) is not part of this repository; the definitions below are
modelled from the spec, sections 4.4 and 4.6. -/

/-- A control signal a step may raise. -/
inductive StepSignal where
  | normal
  | exitLoop
  deriving DecidableEq

/-- The outcome of running one step: the updated state and whether the
step raised the loop-exit signal. -/
structure StepOutcome where
  state : SessionState
  signal : StepSignal

/-- A child behaviour: what one step of the loop body does to the state
in the current run (the nondeterministic LLM choices are fixed by the
function). -/
abbrev Child := SessionState → StepOutcome

/-- Modelled from the spec (section 4.4): one iteration of the loop runs
the child sequence in order; as soon as a child raises the loop-exit
signal the remaining siblings are skipped and the signal propagates. -/
def runIteration : List Child → SessionState → StepOutcome
  | [], s => ⟨s, .normal⟩
  | c :: cs, s =>
    match c s with
    | ⟨s1, .exitLoop⟩ => ⟨s1, .exitLoop⟩
    | ⟨s1, .normal⟩ => runIteration cs s1

/-- Modelled from the spec (section 4.6): the loop runs full iterations
of its child sequence, stopping when an iteration raises the loop-exit
signal or when the iteration cap is reached.  Returns the final state
and the number of iterations performed. -/
def runLoop (children : List Child) : Nat → SessionState → SessionState × Nat
  | 0, s => (s, 0)
  | k + 1, s =>
    match runIteration children s with
    | ⟨s1, .exitLoop⟩ => (s1, 1)
    | ⟨s1, .normal⟩ =>
      let r := runLoop children k s1
      (r.1, r.2 + 1)

/-- A child that raises the loop-exit signal at once. -/
def childExit : Child := fun s => ⟨s, .exitLoop⟩

/-- A child that does nothing. -/
def childSkip : Child := fun s => ⟨s, .normal⟩

/-! ## Lemmas about the state dictionary -/

theorem stateGet_stateSet_self (s : SessionState) (k : String) (v : List String) :
    stateGet (stateSet s k v) k = v := by
  induction s with
  | nil => simp [stateSet, stateGet]
  | cons p rest ih =>
    obtain ⟨a, b⟩ := p
    by_cases h : k = a
    · simp [stateSet, h, stateGet]
    · simp [stateSet, h, stateGet, ih]

theorem stateGet_stateSet_ne (s : SessionState) (k k' : String) (v : List String)
    (h : k' ≠ k) : stateGet (stateSet s k v) k' = stateGet s k' := by
  induction s with
  | nil => simp [stateSet, stateGet, h]
  | cons p rest ih =>
    obtain ⟨a, b⟩ := p
    by_cases hk : k = a
    · subst hk
      simp [stateSet, stateGet, h]
    · by_cases hk' : k' = a
      · simp [stateSet, hk, stateGet, hk']
      · simp [stateSet, hk, stateGet, hk', ih]

/-- Sanity check: a concrete successful run of export_verdict_to_txt. -/
theorem export_concrete_run :
    export_verdict_to_txt fs0 ['o', 'u', 't'] ['x'] ['h', 'i'] =
      .ok (⟨[[], [['o', 'u', 't']], []], [([['o', 'u', 't'], ['x']], ['h', 'i'])]⟩,
        successResult) := by
  rfl

/-- Sanity check: a concrete failing run of export_verdict_to_txt. -/
theorem export_concrete_failure :
    export_verdict_to_txt fs0 [] ['x'] ['h', 'i'] = .error .fileNotFound := by
  rfl

/-! ## Lemmas about path components -/

theorem splitOnSlash_ne_nil (p : PyStr) : splitOnSlash p ≠ [] := by
  cases p with
  | nil => simp [splitOnSlash]
  | cons c rest =>
    simp only [splitOnSlash]
    rcases h : splitOnSlash rest with _ | ⟨g, gs⟩
    · simp
    · by_cases hc : c = '/' <;> simp [hc]

theorem splitOnSlash_append_slash (x y : PyStr) :
    splitOnSlash (x ++ '/' :: y) = splitOnSlash x ++ splitOnSlash y := by
  induction x with
  | nil =>
    rcases h : splitOnSlash y with _ | ⟨g, gs⟩
    · exact absurd h (splitOnSlash_ne_nil y)
    · simp [splitOnSlash, h]
  | cons c x' ih =>
    rcases h : splitOnSlash x' with _ | ⟨g, gs⟩
    · exact absurd h (splitOnSlash_ne_nil x')
    · simp only [List.cons_append, splitOnSlash, ih, h, List.append_eq]
      by_cases hc : c = '/' <;> simp [hc]

theorem components_append_slash (x y : PyStr) :
    components (x ++ '/' :: y) = components x ++ components y := by
  unfold components
  rw [splitOnSlash_append_slash, List.filter_append]

theorem components_slash_cons (y : PyStr) : components ('/' :: y) = components y := by
  have := components_append_slash [] y
  simpa using this

theorem components_concat_slash (x : PyStr) : components (x ++ ['/']) = components x := by
  have := components_append_slash x []
  simpa [components, splitOnSlash] using this

theorem components_append_all_slash (s : PyStr) :
    ∀ x : PyStr, (∀ c ∈ s, c = '/') → components (x ++ s) = components x := by
  induction s with
  | nil => intro x _; simp
  | cons c s' ih =>
    intro x h
    have hc : c = '/' := h c (by simp)
    subst hc
    have : x ++ '/' :: s' = (x ++ ['/']) ++ s' := by simp
    rw [this, ih (x ++ ['/']) (fun d hd => h d (by simp [hd])), components_concat_slash]

theorem splitOnSlash_sepFree (n : PyStr) (h : sepFree n) : splitOnSlash n = [n] := by
  induction n with
  | nil => simp [splitOnSlash]
  | cons c n' ih =>
    have hc : c ≠ '/' := h c (by simp)
    have hn' : sepFree n' := fun d hd => h d (by simp [hd])
    simp [splitOnSlash, ih hn', hc]

theorem components_sepFree (n : PyStr) (h : sepFree n) (hn : n ≠ []) :
    components n = [n] := by
  simp [components, splitOnSlash_sepFree n h, hn]

theorem components_rstrip (f : PyStr) : components (rstrip f) = components f := by
  have key : ∀ r : PyStr, components ((r.dropWhile (fun c => c = '/')).reverse) =
      components r.reverse := by
    intro r
    have hall : ∀ c ∈ (r.takeWhile (fun c => c = '/')).reverse, c = '/' := by
      intro c hc
      have h1 : c ∈ r.takeWhile (fun c => c = '/') := by simpa using hc
      simpa using List.mem_takeWhile_imp h1
    have h2 : (r.dropWhile (fun c => c = '/')).reverse ++
        (r.takeWhile (fun c => c = '/')).reverse = r.reverse := by
      rw [← List.reverse_append, List.takeWhile_append_dropWhile]
    rw [← h2]
    exact (components_append_all_slash _ _ hall).symm
  have := key f.reverse
  simpa [rstrip] using this

/-! ## Lemmas about joinPath and dirname -/

theorem sepFree_head_ne (n : PyStr) (h : sepFree n) : n.head? ≠ some '/' := by
  cases n with
  | nil => simp
  | cons c rest =>
    have := h c (by simp)
    simp [this]

theorem sepFree_getLast_ne (n : PyStr) (h : sepFree n) : n.getLast? ≠ some '/' := by
  intro heq
  obtain ⟨ys, rfl⟩ := List.getLast?_eq_some_iff.mp heq
  exact h '/' (by simp) rfl

theorem dropWhile_ne_slash_of_all (l : PyStr) (h : ∀ c ∈ l, c ≠ '/') :
    l.dropWhile (fun c => c ≠ '/') = [] := by
  induction l with
  | nil => rfl
  | cons c l' ih =>
    have hc := h c (by simp)
    simp only [List.dropWhile_cons]
    rw [if_pos (by simpa using hc)]
    exact ih fun d hd => h d (by simp [hd])

theorem dirname_head_slash_end (ys n : PyStr) (hn : sepFree n) :
    (((ys ++ ['/']) ++ n).reverse.dropWhile (fun c => c ≠ '/')).reverse = ys ++ ['/'] := by
  have h1 : n.reverse.dropWhile (fun c => c ≠ '/') = [] :=
    dropWhile_ne_slash_of_all _ (fun c hc => hn c (List.mem_reverse.mp hc))
  rw [List.reverse_append, List.dropWhile_append, h1]
  simp [List.reverse_append, List.dropWhile_cons]

theorem dirname_head_no_slash_end (f n : PyStr) (hn : sepFree n) :
    ((f ++ '/' :: n).reverse.dropWhile (fun c => c ≠ '/')).reverse = f ++ ['/'] := by
  have h1 : n.reverse.dropWhile (fun c => c ≠ '/') = [] :=
    dropWhile_ne_slash_of_all _ (fun c hc => hn c (List.mem_reverse.mp hc))
  have h2 : (f ++ '/' :: n).reverse = n.reverse ++ '/' :: f.reverse := by simp
  rw [h2, List.dropWhile_append, h1]
  simp [List.dropWhile_cons]

theorem joinPath_eq_of_slash_end (f n : PyStr) (hf : f ≠ []) (hl : f.getLast? = some '/')
    (hn : sepFree n) : joinPath f n = f ++ n := by
  unfold joinPath
  rw [if_neg (sepFree_head_ne n hn), if_neg hf, if_pos hl]

theorem joinPath_eq_of_no_slash_end (f n : PyStr) (hf : f ≠ [])
    (hl : ¬ f.getLast? = some '/') (hn : sepFree n) : joinPath f n = f ++ '/' :: n := by
  unfold joinPath
  rw [if_neg (sepFree_head_ne n hn), if_neg hf, if_neg hl]

theorem joinPath_nil_folder (n : PyStr) (hn : sepFree n) : joinPath [] n = n := by
  unfold joinPath
  rw [if_neg (sepFree_head_ne n hn), if_pos rfl]
  rfl

theorem dirname_sepFree (n : PyStr) (hn : sepFree n) : dirname n = [] := by
  have h1 : n.reverse.dropWhile (fun c => c ≠ '/') = [] :=
    dropWhile_ne_slash_of_all _ (fun c hc => hn c (List.mem_reverse.mp hc))
  unfold dirname
  rw [h1]
  simp

theorem components_dirname_join (f n : PyStr) (hf : f ≠ []) (hn : sepFree n) :
    components (dirname (joinPath f n)) = components f := by
  by_cases hl : f.getLast? = some '/'
  · obtain ⟨ys, hys⟩ := List.getLast?_eq_some_iff.mp hl
    rw [joinPath_eq_of_slash_end f n hf hl hn]
    subst hys
    simp only [dirname, dirname_head_slash_end ys n hn]
    have hne : ys ++ ['/'] ≠ [] := by simp
    rw [if_neg hne]
    by_cases hall : (ys ++ ['/']).all (fun c => c = '/') = true
    · rw [if_pos hall]
    · rw [if_neg hall, components_rstrip]
  · rw [joinPath_eq_of_no_slash_end f n hf hl hn]
    simp only [dirname, dirname_head_no_slash_end f n hn]
    have hne : f ++ ['/'] ≠ [] := by simp
    rw [if_neg hne]
    by_cases hall : (f ++ ['/']).all (fun c => c = '/') = true
    · rw [if_pos hall, components_concat_slash]
    · rw [if_neg hall, components_rstrip, components_concat_slash]

theorem components_join (f n : PyStr) (hf : f ≠ []) (hn : sepFree n) (hne : n ≠ []) :
    components (joinPath f n) = components f ++ [n] := by
  by_cases hl : f.getLast? = some '/'
  · obtain ⟨ys, hys⟩ := List.getLast?_eq_some_iff.mp hl
    rw [joinPath_eq_of_slash_end f n hf hl hn]
    subst hys
    have h2 : (ys ++ ['/']) ++ n = ys ++ '/' :: n := by simp
    rw [h2, components_append_slash, components_concat_slash,
      components_sepFree n hn hne]
  · rw [joinPath_eq_of_no_slash_end f n hf hl hn, components_append_slash,
      components_sepFree n hn hne]

theorem joinPath_getLast (f n : PyStr) (hne : n ≠ []) :
    (joinPath f n).getLast? = n.getLast? := by
  unfold joinPath
  by_cases h1 : n.head? = some '/'
  · rw [if_pos h1]
  · rw [if_neg h1]
    by_cases h2 : f = []
    · rw [if_pos h2]
      subst h2
      simp
    · rw [if_neg h2]
      by_cases h3 : f.getLast? = some '/'
      · rw [if_pos h3, List.getLast?_append_of_ne_nil _ hne]
      · rw [if_neg h3]
        have h4 : ('/' :: n : PyStr) ≠ [] := by simp
        rw [List.getLast?_append_of_ne_nil _ h4]
        have h5 : ('/' :: n : PyStr) = ['/'] ++ n := rfl
        rw [h5, List.getLast?_append_of_ne_nil _ hne]

/-! ## Lemmas about the filesystem operations -/

theorem self_mem_ancestors (l : List PyStr) : l ∈ ancestors l := by
  induction l with
  | nil => simp [ancestors]
  | cons c rest ih =>
    simp only [ancestors, List.mem_cons]
    right
    exact List.mem_map.mpr ⟨rest, ih, rfl⟩

theorem length_le_of_mem_ancestors :
    ∀ {l p : List PyStr}, p ∈ ancestors l → p.length ≤ l.length := by
  intro l
  induction l with
  | nil =>
    intro p hp
    simp [ancestors] at hp
    simp [hp]
  | cons c rest ih =>
    intro p hp
    simp only [ancestors, List.mem_cons] at hp
    rcases hp with rfl | hp
    · simp
    · obtain ⟨q, hq, rfl⟩ := List.mem_map.mp hp
      simpa using Nat.succ_le_succ (ih hq)

theorem lookupFile_filter_ne_none (files : List (List PyStr × PyStr))
    (p q : List PyStr) (h : lookupFile files p = none) :
    lookupFile (files.filter (fun kv => kv.1 ≠ q)) p = none := by
  induction files with
  | nil => rfl
  | cons kv rest ih =>
    obtain ⟨a, b⟩ := kv
    simp only [lookupFile] at h
    by_cases hpa : p = a
    · rw [if_pos hpa] at h
      exact absurd h (by simp)
    · rw [if_neg hpa] at h
      simp only [List.filter_cons]
      by_cases haq : a = q
      · rw [if_neg (by simp [haq])]
        exact ih h
      · rw [if_pos (by simp [haq])]
        simp only [lookupFile]
        rw [if_neg hpa]
        exact ih h

theorem makedirs_ok (fs : FS) (name : PyStr) (h1 : name ≠ [])
    (h2 : ∀ p ∈ ancestors (components name), fileContent fs p = none) :
    makedirs fs name = .ok ⟨ancestors (components name) ++ fs.dirs, fs.files⟩ := by
  unfold makedirs
  rw [if_neg h1]
  have hany : (ancestors (components name)).any
      (fun p => (fileContent fs p).isSome) = false := by
    rw [List.any_eq_false]
    intro p hp
    simp [h2 p hp]
  rw [if_neg (by simp [hany])]

theorem writeFile_ok (fs : FS) (path content : PyStr)
    (h1 : path.getLast? ≠ some '/')
    (h2 : components path ≠ [])
    (h3 : ¬ dirExists fs (components path))
    (h4 : dirExists fs (components path).dropLast) :
    writeFile fs path content = .ok ⟨fs.dirs,
      (components path, content) ::
        fs.files.filter (fun kv => kv.1 ≠ components path)⟩ := by
  unfold writeFile
  rw [if_neg h1, if_neg h2, if_neg h3, if_neg (fun hc => hc h4)]

theorem export_eq_of (fs fs1 fs2 : FS) (folder n t : PyStr)
    (hmk : makedirs fs (dirname (joinPath folder n)) = .ok fs1)
    (hw : writeFile fs1 (joinPath folder n) t = .ok fs2) :
    export_verdict_to_txt fs folder n t = .ok (fs2, successResult) := by
  unfold export_verdict_to_txt
  simp only [hmk, hw]

theorem export_error_of_makedirs (fs : FS) (folder n t : PyStr) (e : OSErr)
    (hmk : makedirs fs (dirname (joinPath folder n)) = .error e) :
    export_verdict_to_txt fs folder n t = .error e := by
  unfold export_verdict_to_txt
  simp only [hmk]

/-- C4: on a filesystem where the folder does not exist, calling
export_verdict_to_txt with a separator-free file name creates the folder
with all intermediate directories and writes the file with exactly the
given text; calling it again with a different text overwrites the file
so that it holds exactly the new text. -/
theorem export_verdict_creates_and_overwrites
    (fs : FS) (f n t t' : PyStr)
    (hwf : WellFormed fs) (hsf : sepFree n) (hne : n ≠ [])
    (hnd : ¬ dirExists fs (components f))
    (hnf : ∀ p ∈ ancestors (components f), fileContent fs p = none) :
    ∃ fsA rA, export_verdict_to_txt fs f n t = .ok (fsA, rA) ∧
      rA = successResult ∧
      (∀ p ∈ ancestors (components f), dirExists fsA p) ∧
      fileContent fsA (components f ++ [n]) = some t ∧
      ∃ fsB rB, export_verdict_to_txt fsA f n t' = .ok (fsB, rB) ∧
        rB = successResult ∧
        fileContent fsB (components f ++ [n]) = some t' := by
  have hroot : dirExists fs [] := hwf.1
  have hf : f ≠ [] := by
    rintro rfl
    exact hnd hroot
  have hcf : components f ≠ [] := by
    intro h
    apply hnd
    unfold dirExists
    rw [h]
    exact hroot
  have hpc : components (joinPath f n) = components f ++ [n] :=
    components_join f n hf hsf hne
  have hdn : components (dirname (joinPath f n)) = components f :=
    components_dirname_join f n hf hsf
  have hdn_ne : dirname (joinPath f n) ≠ [] := by
    intro h
    apply hcf
    rw [← hdn, h]
    rfl
  have hlast : (joinPath f n).getLast? ≠ some '/' := by
    rw [joinPath_getLast f n hne]
    exact sepFree_getLast_ne n hsf
  have hcp_ne : components (joinPath f n) ≠ [] := by
    rw [hpc]
    simp
  have hlen : (components f ++ [n]) ∉ ancestors (components f) := by
    intro h
    have := length_le_of_mem_ancestors h
    simp at this
  have hnotdirs : (components f ++ [n]) ∉ fs.dirs := by
    intro h
    have h5 := hwf.2 _ h
    rw [List.dropLast_concat] at h5
    exact hnd h5
  have hmk1 : makedirs fs (dirname (joinPath f n)) =
      .ok ⟨ancestors (components f) ++ fs.dirs, fs.files⟩ := by
    have h2 : ∀ p ∈ ancestors (components (dirname (joinPath f n))),
        fileContent fs p = none := by
      rw [hdn]
      exact hnf
    have h3 := makedirs_ok fs (dirname (joinPath f n)) hdn_ne h2
    rw [hdn] at h3
    exact h3
  have hnotdir1 : ¬ dirExists
      (⟨ancestors (components f) ++ fs.dirs, fs.files⟩ : FS)
      (components (joinPath f n)) := by
    rw [hpc]
    intro hmem
    rcases List.mem_append.mp hmem with h | h
    · exact hlen h
    · exact hnotdirs h
  have hparent1 : dirExists
      (⟨ancestors (components f) ++ fs.dirs, fs.files⟩ : FS)
      (components (joinPath f n)).dropLast := by
    unfold dirExists
    rw [hpc, List.dropLast_concat]
    exact List.mem_append_left _ (self_mem_ancestors (components f))
  have hw1 := writeFile_ok ⟨ancestors (components f) ++ fs.dirs, fs.files⟩
    (joinPath f n) t hlast hcp_ne hnotdir1 hparent1
  rw [hpc] at hw1
  have hexp1 : export_verdict_to_txt fs f n t =
      .ok (⟨ancestors (components f) ++ fs.dirs,
        (components f ++ [n], t) ::
          fs.files.filter (fun kv => kv.1 ≠ components f ++ [n])⟩, successResult) :=
    export_eq_of _ _ _ _ _ _ hmk1 hw1
  have hnf2 : ∀ p ∈ ancestors (components f),
      lookupFile ((components f ++ [n], t) ::
        fs.files.filter (fun kv => kv.1 ≠ components f ++ [n])) p = none := by
    intro p hp
    have hpne : p ≠ components f ++ [n] := by
      intro he
      rw [he] at hp
      exact hlen hp
    simp only [lookupFile]
    rw [if_neg hpne]
    exact lookupFile_filter_ne_none fs.files p _ (hnf p hp)
  have hmk2 : makedirs
      (⟨ancestors (components f) ++ fs.dirs,
        (components f ++ [n], t) ::
          fs.files.filter (fun kv => kv.1 ≠ components f ++ [n])⟩ : FS)
      (dirname (joinPath f n)) =
      .ok ⟨ancestors (components f) ++ (ancestors (components f) ++ fs.dirs),
        (components f ++ [n], t) ::
          fs.files.filter (fun kv => kv.1 ≠ components f ++ [n])⟩ := by
    have h2 : ∀ p ∈ ancestors (components (dirname (joinPath f n))),
        fileContent (⟨ancestors (components f) ++ fs.dirs,
          (components f ++ [n], t) ::
            fs.files.filter (fun kv => kv.1 ≠ components f ++ [n])⟩ : FS) p = none := by
      rw [hdn]
      exact hnf2
    have h3 := makedirs_ok _ (dirname (joinPath f n)) hdn_ne h2
    rw [hdn] at h3
    exact h3
  have hnotdir2 : ¬ dirExists
      (⟨ancestors (components f) ++ (ancestors (components f) ++ fs.dirs),
        (components f ++ [n], t) ::
          fs.files.filter (fun kv => kv.1 ≠ components f ++ [n])⟩ : FS)
      (components (joinPath f n)) := by
    rw [hpc]
    intro hmem
    rcases List.mem_append.mp hmem with h | h
    · exact hlen h
    · rcases List.mem_append.mp h with h | h
      · exact hlen h
      · exact hnotdirs h
  have hparent2 : dirExists
      (⟨ancestors (components f) ++ (ancestors (components f) ++ fs.dirs),
        (components f ++ [n], t) ::
          fs.files.filter (fun kv => kv.1 ≠ components f ++ [n])⟩ : FS)
      (components (joinPath f n)).dropLast := by
    unfold dirExists
    rw [hpc, List.dropLast_concat]
    exact List.mem_append_left _ (self_mem_ancestors (components f))
  have hw2 := writeFile_ok
    ⟨ancestors (components f) ++ (ancestors (components f) ++ fs.dirs),
      (components f ++ [n], t) ::
        fs.files.filter (fun kv => kv.1 ≠ components f ++ [n])⟩
    (joinPath f n) t' hlast hcp_ne hnotdir2 hparent2
  rw [hpc] at hw2
  have hexp2 := export_eq_of _ _ _ _ _ _ hmk2 hw2
  refine ⟨_, _, hexp1, rfl, ?_, ?_, _, _, hexp2, rfl, ?_⟩
  · intro p hp
    exact List.mem_append_left _ hp
  · simp [fileContent, lookupFile]
  · simp [fileContent, lookupFile]

/-- Witness for C4: folder "out", file name "x.txt", text "hello" then
"world", on the filesystem holding only the root. -/
theorem export_verdict_creates_and_overwrites_witness :
    ∃ fsA rA, export_verdict_to_txt fs0 ['o', 'u', 't'] ['x', '.', 't', 'x', 't']
        ['h', 'e', 'l', 'l', 'o'] = .ok (fsA, rA) ∧
      rA = successResult ∧
      (∀ p ∈ ancestors (components ['o', 'u', 't']), dirExists fsA p) ∧
      fileContent fsA (components ['o', 'u', 't'] ++ [['x', '.', 't', 'x', 't']]) =
        some ['h', 'e', 'l', 'l', 'o'] ∧
      ∃ fsB rB, export_verdict_to_txt fsA ['o', 'u', 't'] ['x', '.', 't', 'x', 't']
          ['w', 'o', 'r', 'l', 'd'] = .ok (fsB, rB) ∧
        rB = successResult ∧
        fileContent fsB (components ['o', 'u', 't'] ++ [['x', '.', 't', 'x', 't']]) =
          some ['w', 'o', 'r', 'l', 'd'] :=
  export_verdict_creates_and_overwrites fs0 ['o', 'u', 't'] ['x', '.', 't', 'x', 't']
    ['h', 'e', 'l', 'l', 'o'] ['w', 'o', 'r', 'l', 'd']
    (by decide) (by decide) (by decide) (by decide) (by decide)

theorem export_error_of_writeFile (fs fs1 : FS) (folder n t : PyStr) (e : OSErr)
    (hmk : makedirs fs (dirname (joinPath folder n)) = .ok fs1)
    (hw : writeFile fs1 (joinPath folder n) t = .error e) :
    export_verdict_to_txt fs folder n t = .error e := by
  unfold export_verdict_to_txt
  simp only [hmk, hw]

/-- C5 amended: export_verdict_to_txt either propagates an error (the
Python exception) or returns the success dictionary after a successful
write; it never returns a failed status and never swallows a failure. -/
theorem export_surfaces_failure_or_succeeds (fs : FS) (folder n t : PyStr) :
    (∃ e, export_verdict_to_txt fs folder n t = .error e) ∨
    (∃ fs', export_verdict_to_txt fs folder n t = .ok (fs', successResult)) := by
  rcases hm : makedirs fs (dirname (joinPath folder n)) with e | fs1
  · exact .inl ⟨e, export_error_of_makedirs fs folder n t e hm⟩
  · rcases hw : writeFile fs1 (joinPath folder n) t with e | fs2
    · exact .inl ⟨e, export_error_of_writeFile fs fs1 folder n t e hm hw⟩
    · exact .inr ⟨fs2, export_eq_of fs fs1 fs2 folder n t hm hw⟩

/-- C5 as stated is false: on a failing write (here: empty folder, so
directory creation raises) the tool does not return a failed status
result — it returns nothing at all, the exception propagates. -/
theorem export_failure_returns_no_status :
    export_verdict_to_txt fs0 [] ['x'] ['h'] = .error .fileNotFound ∧
    (export_verdict_to_txt fs0 [] ['x'] ['h']).isOk = false :=
  ⟨rfl, rfl⟩

/-- C10: with an empty folder the directory-creation call receives the
empty path and raises FileNotFoundError — nothing is written and no
status is returned; with a non-empty folder the directory passed to
makedirs denotes exactly the folder (identical path components). -/
theorem export_empty_folder_errors_and_target_dir
    (fs : FS) (n t f : PyStr) (hsf : sepFree n) (hf : f ≠ []) :
    export_verdict_to_txt fs [] n t = .error .fileNotFound ∧
    components (dirname (joinPath f n)) = components f := by
  constructor
  · apply export_error_of_makedirs
    rw [joinPath_nil_folder n hsf, dirname_sepFree n hsf]
    rfl
  · exact components_dirname_join f n hf hsf

/-- Witness for C10 at file name "x", text "h", folder "out". -/
theorem export_empty_folder_errors_witness :
    export_verdict_to_txt fs0 [] ['x'] ['h'] = .error .fileNotFound ∧
    components (dirname (joinPath ['o', 'u', 't'] ['x'])) =
      components ['o', 'u', 't'] :=
  export_empty_folder_errors_and_target_dir fs0 ['x'] ['h'] ['o', 'u', 't']
    (by decide) (by decide)

/-! ## Session-state claims -/

/-- C1: appending (k, v) through update_session_state and then reading k
yields the previous sequence at k — the empty sequence when k was absent,
since stateGet defaults to [] — with v appended at the end; the equality
shows every prior entry is preserved in order. -/
theorem update_session_state_get_append (s : SessionState) (k v : String) :
    stateGet (update_session_state s k v).1 k = stateGet s k ++ [v] :=
  stateGet_stateSet_self s k _

/-- C7: update_session_state always returns the success dictionary, and
its whole effect on the session state is writing the appended sequence
at the given key. -/
theorem update_session_state_always_success (s : SessionState) (k v : String) :
    (update_session_state s k v).2 = successResult ∧
    (update_session_state s k v).1 = stateSet s k (stateGet s k ++ [v]) :=
  ⟨rfl, rfl⟩

/-- C9: update_session_state leaves the value of every other key exactly
as it was. -/
theorem update_session_state_frame (s : SessionState) (k v k' : String)
    (h : k' ≠ k) :
    stateGet (update_session_state s k v).1 k' = stateGet s k' :=
  stateGet_stateSet_ne s k k' _ h

/-- Witness for C9 at a concrete state and distinct keys. -/
theorem update_session_state_frame_witness :
    stateGet (update_session_state [("a", ["x"])] "a" "v").1 "b" =
      stateGet [("a", ["x"])] "b" :=
  update_session_state_frame [("a", ["x"])] "a" "v" "b" (by decide)

/-! ## Loop claims -/

theorem runLoop_count_le (children : List Child) :
    ∀ (k : Nat) (s : SessionState), (runLoop children k s).2 ≤ k := by
  intro k
  induction k with
  | zero =>
    intro s
    simp [runLoop]
  | succ k ih =>
    intro s
    simp only [runLoop]
    rcases h : runIteration children s with ⟨s1, sig⟩
    cases sig
    · simpa using Nat.succ_le_succ (ih s1)
    · simp

/-- C2: the trial review loop, configured with max_iterations = 3,
performs at most 3 full iterations of its child sequence, whatever the
children do — in particular even when the exit signal is never raised. -/
theorem trial_review_loop_at_most_three_iterations (env : Env)
    (children : List Child) (s : SessionState) :
    (runLoop children (nodeMaxIterations (trial_review_loop env)) s).2 ≤ 3 :=
  runLoop_count_le children 3 s

theorem runIteration_append (pre rest : List Child) :
    ∀ (s s1 : SessionState), runIteration pre s = ⟨s1, .normal⟩ →
      runIteration (pre ++ rest) s = runIteration rest s1 := by
  induction pre with
  | nil =>
    intro s s1 hpre
    simp only [runIteration, StepOutcome.mk.injEq] at hpre
    rw [List.nil_append, hpre.1]
  | cons c pre ih =>
    intro s s1 hpre
    simp only [runIteration] at hpre
    rcases hc : c s with ⟨s2, sig⟩
    rw [hc] at hpre
    cases sig
    · simp only [List.cons_append, runIteration, hc]
      exact ih s2 s1 hpre
    · simp at hpre

/-- C3: when a child of the loop body raises the loop-exit signal, the
iteration ends at that child — the later siblings are skipped, as the
result does not depend on them — and the loop performs no further
iteration (exactly this one iteration runs from that state). -/
theorem exit_signal_stops_iteration_and_loop
    (pre : List Child) (c : Child) (post : List Child)
    (s s1 : SessionState) (k : Nat)
    (hpre : runIteration pre s = ⟨s1, .normal⟩)
    (hc : (c s1).signal = .exitLoop) :
    runIteration (pre ++ c :: post) s = ⟨(c s1).state, .exitLoop⟩ ∧
    runLoop (pre ++ c :: post) (k + 1) s = ((c s1).state, 1) := by
  have hiter : runIteration (pre ++ c :: post) s = ⟨(c s1).state, .exitLoop⟩ := by
    rw [runIteration_append pre (c :: post) s s1 hpre]
    rcases hcs : c s1 with ⟨s2, sig⟩
    rw [hcs] at hc
    simp only at hc
    subst hc
    simp [runIteration, hcs]
  refine ⟨hiter, ?_⟩
  simp only [runLoop, hiter]

/-- Witness for C3: a body whose first child raises the exit signal,
followed by a sibling that is skipped. -/
theorem exit_signal_stops_iteration_and_loop_witness :
    runIteration ([] ++ childExit :: [childSkip]) [] =
      ⟨(childExit []).state, .exitLoop⟩ ∧
    runLoop ([] ++ childExit :: [childSkip]) (0 + 1) [] =
      ((childExit []).state, 1) :=
  exit_signal_stops_iteration_and_loop [] childExit [childSkip] [] [] 0 rfl rfl

/-! ## Configuration and workflow-shape claims -/

/-- C6: with MODEL absent from the environment the module performs no
configuration check at all — model_name is simply None and the whole
workflow tree is still constructed, every agent holding model = None. -/
theorem model_absent_still_constructs :
    model_name envNone = none ∧
    nodeModel (the_admirer envNone) = none ∧
    nodeModel (the_judge envNone) = none ∧
    nodeModel (verdict_scribe envNone) = none ∧
    root_agent envNone = .agentStep "inquiry_clerk" none [.updateStateTool]
      [court_system_workflow envNone] :=
  ⟨rfl, rfl, rfl, rfl, rfl⟩

/-- C8 as stated is false: the root of the assembled graph is the entry
LLM agent inquiry_clerk, not a Sequential node. -/
theorem root_agent_not_sequential :
    kindOf (root_agent envSome) = NodeKind.agent ∧
    NodeKind.agent ≠ NodeKind.sequential :=
  ⟨rfl, by decide⟩

/-- C8 amended: the root is the entry agent inquiry_clerk whose single
sub-agent is the main Sequential; below it the claimed structure holds
exactly: Sequential(Loop(max_iterations = 3, children =
[Parallel(admirer, critic), judge]), scribe). -/
theorem workflow_tree_shape (env : Env) :
    root_agent env =
      .agentStep "inquiry_clerk" (model_name env) [.updateStateTool]
        [.sequentialStep "court_system_workflow"
          [.loopStep "trial_review_loop"
            [.parallelStep "investigation_stage"
              [.agentStep "admirer" (model_name env)
                [.wikipediaQuery, .updateStateTool] [],
               .agentStep "critic" (model_name env)
                [.wikipediaQuery, .updateStateTool] []],
             .agentStep "judge" (model_name env) [.exitLoopTool] []] 3,
           .agentStep "verdict_scribe" (model_name env) [.exportVerdictTool] []]] :=
  rfl
